import Mathlib

/-!
Shallow embedding of the three data-transformation functions of
`src/app.py` (`ajouter_diametres`, `nettoyer_fichier`, `comparer_fichiers`).

A table is modelled as an ordered list of column names together with an
ordered list of rows, each row an ordered list of cells aligned with the
column list.  A cell is a missing value (`Cell.null`, pandas `NaN`), a
string, or a parsed date (`pd.to_datetime` output, encoded as the number
`year*10000 + month*100 + day` so that the numeric order is the
chronological order).

The pandas primitives used by the source are modelled explicitly:
`sort_values` on several columns (a stable lexicographic sort, modelled by
insertion sort — any stable sort by the same preorder produces the same
output), `drop_duplicates(keep="first")`, `merge(how='left')` with its
`_x`/`_y` suffixing of overlapping column names, `drop(columns=...)`,
boolean-mask filtering, and `pd.to_datetime(errors='coerce', dayfirst=True)`
restricted to the date shapes exercised here (ISO `YYYY-MM-DD` and
`DD/MM/YYYY`).  Errors shown through `st.error` are modelled as an
`Option String` channel returned next to the table.
-/

/-- Cell values: missing (pandas NaN), a string, or a parsed date. -/
inductive Cell where
  | null : Cell
  | str : String → Cell
  | date : Nat → Cell
deriving DecidableEq, Repr

/-- Character comparison by code point. -/
def charLtB (a b : Char) : Bool := decide (a < b)

/-- Lexicographic comparison of character lists (string order). -/
def lexLtB : List Char → List Char → Bool
  | [], [] => false
  | [], _ :: _ => true
  | _ :: _, [] => false
  | a :: as, b :: bs => charLtB a b || (decide (a = b) && lexLtB as bs)

/-- String comparison used when sorting key columns. -/
def strLtB (s t : String) : Bool := lexLtB s.data t.data

/-- Order on cells: null first, then strings in lexicographic order, then dates. -/
def cellLtB : Cell → Cell → Bool
  | Cell.null, Cell.null => false
  | Cell.null, Cell.str _ => true
  | Cell.null, Cell.date _ => true
  | Cell.str _, Cell.null => false
  | Cell.str s, Cell.str t => strLtB s t
  | Cell.str _, Cell.date _ => true
  | Cell.date _, Cell.null => false
  | Cell.date _, Cell.str _ => false
  | Cell.date d, Cell.date e => decide (d < e)

/-- Whitespace recognized by `str.strip()`. -/
def isSpaceChar (c : Char) : Bool := c == ' ' || c == '\t' || c == '\n' || c == '\r'

/-- Model of Python `str.strip()`. -/
def strTrim (s : String) : String :=
  String.mk (((s.data.dropWhile isSpaceChar).reverse.dropWhile isSpaceChar).reverse)

/-- Model of `astype(str)` on a single cell. -/
def cellToStr : Cell → String
  | Cell.null => "nan"
  | Cell.str s => s
  | Cell.date d => toString d

/-- Splits a character list on a separator character. -/
def splitCharAux (sep : Char) : List Char → List Char → List (List Char)
  | [], acc => [acc.reverse]
  | c :: cs, acc =>
    if c = sep then acc.reverse :: splitCharAux sep cs []
    else splitCharAux sep cs (c :: acc)

/-- Numeric value of a digit list; `none` if a non-digit occurs. -/
def digitsVal : List Char → Nat → Option Nat
  | [], acc => some acc
  | c :: cs, acc => if c.isDigit then digitsVal cs (acc * 10 + (c.toNat - 48)) else none

/-- Numeric value of a non-empty digit list. -/
def digitsToNat : List Char → Option Nat
  | [] => none
  | c :: cs => digitsVal (c :: cs) 0

/-- Packs a year/month/day triple into a single comparable number. -/
def dateFromYMD (y m d : Nat) : Option Nat :=
  if 1 ≤ m ∧ m ≤ 12 ∧ 1 ≤ d ∧ d ≤ 31 then some (y * 10000 + m * 100 + d) else none

/-- Model of lenient date parsing (`pd.to_datetime(errors='coerce', dayfirst=True)`)
for the textual shapes used by this development: ISO `YYYY-MM-DD` and the
day-first form `DD/MM/YYYY`.  Anything else fails (`NaT`). -/
def parseDateString (s : String) : Option Nat :=
  match splitCharAux '-' s.data [] with
  | [ys, ms, ds] =>
    match digitsToNat ys, digitsToNat ms, digitsToNat ds with
    | some y, some m, some d => dateFromYMD y m d
    | _, _, _ => none
  | _ =>
    match splitCharAux '/' s.data [] with
    | [ds, ms, ys] =>
      match digitsToNat ys, digitsToNat ms, digitsToNat ds with
      | some y, some m, some d => dateFromYMD y m d
      | _, _, _ => none
    | _ => none

/-- Date parsing of a cell: an already parsed date passes through, a string is
parsed leniently, a missing value fails. -/
def parseDate : Cell → Option Nat
  | Cell.null => none
  | Cell.date d => some d
  | Cell.str s => parseDateString s

/-- A table: ordered column names and ordered rows of cells. -/
structure Table where
  cols : List String
  rows : List (List Cell)
deriving DecidableEq, Repr

/-- The empty table returned on schema errors (`pd.DataFrame()`). -/
def Table.empty : Table := { cols := [], rows := [] }

/-- Cell of a row at a named column (first occurrence of the name), `null` if absent. -/
def getCellC (cols : List String) (r : List Cell) (c : String) : Cell :=
  match cols.findIdx? (fun x => x == c) with
  | some i => r.getD i Cell.null
  | none => Cell.null

/-- Key cell of a row (`N° compteur`). -/
def keyCell (cols : List String) (r : List Cell) : Cell := getCellC cols r "N° compteur"

/-- Date cell of a row. -/
def dateCell (cols : List String) (r : List Cell) : Cell := getCellC cols r "Date"

/-- Index cell of a row. -/
def indexCell (cols : List String) (r : List Cell) : Cell := getCellC cols r "Index"

/-- Model of `df['Date'] = pd.to_datetime(df['Date'], errors='coerce', dayfirst=True)`
followed by `df.dropna(subset=['Date'], inplace=True)`: every date cell is
replaced by its parsed value and rows whose date fails to parse are removed. -/
def parseDates (t : Table) : Table :=
  match t.cols.findIdx? (fun x => x == "Date") with
  | none => t
  | some i =>
    { cols := t.cols,
      rows := t.rows.filterMap (fun r =>
        match parseDate (r.getD i Cell.null) with
        | some d => some (r.set i (Cell.date d))
        | none => none) }

/-- Stable insertion into a sorted list: the new element goes before the first
element it compares less-or-equal to. -/
def insertLe {α : Type} (le : α → α → Bool) (a : α) : List α → List α
  | [] => [a]
  | b :: l => if le a b then a :: b :: l else b :: insertLe le a l

/-- Stable insertion sort, the model of `sort_values` on several columns
(pandas uses a stable lexicographic sort there; any stable sort by the same
total preorder yields the same list). -/
def isort {α : Type} (le : α → α → Bool) : List α → List α
  | [] => []
  | a :: l => insertLe le a (isort le l)

/-- Row order used by `sort_values(by=["N° compteur", "Date"], ascending=[True, False])`:
key ascending, then date descending. -/
def leRow (cols : List String) (r1 r2 : List Cell) : Bool :=
  cellLtB (keyCell cols r1) (keyCell cols r2) ||
    (decide (keyCell cols r1 = keyCell cols r2) &&
      !cellLtB (dateCell cols r1) (dateCell cols r2))

/-- Filter of `pd.notna(df['Index']) & (df['Index'].astype(str).str.strip() != '')`. -/
def validIndexB (cols : List String) (r : List Cell) : Bool :=
  decide (indexCell cols r ≠ Cell.null) &&
    decide (strTrim (cellToStr (indexCell cols r)) ≠ "")

/-- Model of `drop_duplicates(subset="N° compteur", keep="first")`: keep the
first row carrying each key, scanning left to right. -/
def dedupAux {α β : Type} [DecidableEq β] (key : α → β) (seen : List β) : List α → List α
  | [] => []
  | r :: rs =>
    if key r ∈ seen then dedupAux key seen rs
    else r :: dedupAux key (key r :: seen) rs

/-- The deduplication entry point of `src/app.py` (`nettoyer_fichier`): schema
check, lenient date parsing with silent drop, stable sort by key ascending and
date descending, removal of rows with an empty trimmed index, and first-match
deduplication per key.  The `Option String` mirrors the `st.error` channel. -/
def nettoyer_fichier (df : Table) : Table × Option String :=
  if "N° compteur" ∈ df.cols ∧ "Date" ∈ df.cols ∧ "Index" ∈ df.cols then
    let df1 := parseDates df
    let df_trie := isort (leRow df1.cols) df1.rows
    let df_filtre := df_trie.filter (validIndexB df1.cols)
    ({ cols := df1.cols, rows := dedupAux (keyCell df1.cols) [] df_filtre }, none)
  else
    (Table.empty,
      some ("Erreur : il manque les colonnes suivantes : " ++
        String.intercalate ", "
          ((["N° compteur", "Date", "Index"] : List String).filter
            (fun c => decide (c ∉ df.cols)))))

/-- The input table as the caller sees it after `nettoyer_fichier` returns:
the source mutates `df` in place (`df['Date'] = ...` and
`df.dropna(..., inplace=True)`) once the schema check has passed. -/
def nettoyer_fichier_post (df : Table) : Table :=
  if "N° compteur" ∈ df.cols ∧ "Date" ∈ df.cols ∧ "Index" ∈ df.cols then
    parseDates df
  else df

/-- Projection `df[cs]` keeping the listed columns in the listed order. -/
def projectCols (t : Table) (cs : List String) : Table :=
  { cols := cs, rows := t.rows.map (fun r => cs.map (fun c => getCellC t.cols r c)) }

/-- Column names of the left operand of `pd.merge`, with suffix appended to
names that also occur in the other operand. -/
def suffixCols (own other : List String) (suf : String) : List String :=
  own.map (fun c => if c ∈ other then c ++ suf else c)

/-- Right rows matching one left row in `pd.merge(..., how='left')`, in the
right table's original order.  Missing keys match missing keys: pandas
factorizes both key columns together and gives left-side and right-side `NaN`
keys the same group (the NA group of `_factorize_keys`), so a `NaN` left key
matches every `NaN` right key and fans out like any other key. -/
def mergeMatches (l r : Table) (lk rk : String) (lrow : List Cell) : List (List Cell) :=
  r.rows.filter (fun rr => getCellC r.cols rr rk == getCellC l.cols lrow lk)

/-- Output rows contributed by one left row in `pd.merge(..., how='left')`:
one row per matching right row, or a single null-padded row when there is no
match. -/
def mergeRowsFor (l r : Table) (lk rk : String) (lrow : List Cell) : List (List Cell) :=
  if (mergeMatches l r lk rk lrow).isEmpty then
    [lrow ++ List.replicate r.cols.length Cell.null]
  else (mergeMatches l r lk rk lrow).map (fun rr => lrow ++ rr)

/-- Model of `pd.merge(l, r, left_on=lk, right_on=rk, how='left')`: left rows
in order, fanned out over their matches, with overlapping column names
suffixed `_x` and `_y`. -/
def mergeLeft (l r : Table) (lk rk : String) : Table :=
  { cols := suffixCols l.cols r.cols "_x" ++ suffixCols r.cols l.cols "_y",
    rows := l.rows.flatMap (mergeRowsFor l r lk rk) }

/-- Model of `df.drop(columns=[c])` for a table that carries column `c`
(first occurrence of the name).  When `c` is absent pandas raises `KeyError`
— reachable in `ajouter_diametres` only when the primary table itself
contains `Numéro de compteur`, so both suffixed copies survive the merge and
the plain name is gone.  That exception is not modelled: the `none` branch
below is unreachable under the hypotheses of every theorem stated about
`ajouter_diametres`, which exclude that column from the primary table. -/
def dropColumn (t : Table) (c : String) : Table :=
  match t.cols.findIdx? (fun x => x == c) with
  | none => t
  | some i => { cols := t.cols.eraseIdx i, rows := t.rows.map (fun r => r.eraseIdx i) }

/-- The enrichment entry point of `src/app.py` (`ajouter_diametres`): schema
checks, projection of the lookup table to its key and diameter columns, left
merge, and removal of the lookup key column. -/
def ajouter_diametres (df_extraction df_diametres : Table) : Table × Option String :=
  if "N° compteur" ∉ df_extraction.cols then
    (Table.empty,
      some "Le fichier d\x27extraction doit avoir une colonne \x27N° compteur\x27.")
  else if "Numéro de compteur" ∉ df_diametres.cols ∨ "Diametre" ∉ df_diametres.cols then
    (Table.empty,
      some "Le fichier des diamètres doit avoir les colonnes \x27Numéro de compteur\x27 et \x27Diametre\x27.")
  else
    let selection := projectCols df_diametres ["Numéro de compteur", "Diametre"]
    let df_fusionne := mergeLeft df_extraction selection "N° compteur" "Numéro de compteur"
    (dropColumn df_fusionne "Numéro de compteur", none)

/-- The comparison entry point of `src/app.py` (`comparer_fichiers`): keys of
the first file absent from the second file's key set, then a mask filter of
the first file's rows. -/
def comparer_fichiers (df1 df2 : Table) : Table × Option String :=
  if "N° compteur" ∈ df1.cols ∧ "N° compteur" ∈ df2.cols then
    let compteurs_f1 := df1.rows.map (fun r => keyCell df1.cols r)
    let compteurs_f2 := df2.rows.map (fun r => keyCell df2.cols r)
    let compteurs_manquants := compteurs_f1.filter (fun k => !(compteurs_f2.contains k))
    ({ cols := df1.cols,
       rows := df1.rows.filter (fun r => compteurs_manquants.contains (keyCell df1.cols r)) },
     none)
  else
    (Table.empty, some "La colonne \x27N° compteur\x27 doit exister dans les deux fichiers.")

/-- Whether a pattern occurs at the head of a character list. -/
def startsWithList : List Char → List Char → Bool
  | _, [] => true
  | [], _ :: _ => false
  | a :: as, b :: bs => decide (a = b) && startsWithList as bs

/-- Whether a pattern occurs as a contiguous run inside a character list. -/
def hasSubList : List Char → List Char → Bool
  | [], pat => pat.isEmpty
  | t :: ts, pat => startsWithList (t :: ts) pat || hasSubList ts pat

/-- Whether an error message names a given column (substring occurrence). -/
def msgNames (msg col : String) : Bool := hasSubList msg.data col.data

/-- Number of lookup rows whose key column matches a key cell (a missing key
matches the lookup's missing keys, as in pandas merge).  Used to state the
fan-out behavior of the left merge. -/
def nbCorrespondances (df_diametres : Table) (k : Cell) : Nat :=
  (df_diametres.rows.filter
    (fun rr => getCellC df_diametres.cols rr "Numéro de compteur" == k)).length

/-- Example primary table with a single row keyed `A`. -/
def t1Prim : Table := { cols := ["N° compteur"], rows := [[Cell.str "A"]] }

/-- Example lookup table whose key `A` occurs twice. -/
def t1Look : Table :=
  { cols := ["Numéro de compteur", "Diametre"],
    rows := [[Cell.str "A", Cell.str "15"], [Cell.str "A", Cell.str "20"]] }

/-- Example primary table with rows keyed `A` and `C`. -/
def t1wPrim : Table :=
  { cols := ["N° compteur"], rows := [[Cell.str "A"], [Cell.str "C"]] }

/-- Example lookup table with distinct keys `A` and `B`. -/
def t1wLook : Table :=
  { cols := ["Numéro de compteur", "Diametre"],
    rows := [[Cell.str "A", Cell.str "15"], [Cell.str "B", Cell.str "20"]] }

/-- Example primary table with a single row keyed `A` and a reference column. -/
def t2Prim : Table :=
  { cols := ["N° compteur", "Réf. abonné"], rows := [[Cell.str "A", Cell.str "r1"]] }

/-- Example lookup table whose key `A` occurs twice with two diameters. -/
def t2Look : Table :=
  { cols := ["Numéro de compteur", "Diametre"],
    rows := [[Cell.str "A", Cell.str "15"], [Cell.str "A", Cell.str "20"]] }

/-- Example primary table with rows keyed `A`, `B` and `C`. -/
def t2wPrim : Table :=
  { cols := ["N° compteur"], rows := [[Cell.str "A"], [Cell.str "B"], [Cell.str "C"]] }

/-- Example lookup table with two rows keyed `A` and one keyed `B`. -/
def t2wLook : Table :=
  { cols := ["Numéro de compteur", "Diametre"],
    rows := [[Cell.str "A", Cell.str "15"], [Cell.str "A", Cell.str "20"],
             [Cell.str "B", Cell.str "7"]] }

/-- The three readings of key `K1` from the most-recent-valid scenario. -/
def t3K1 : Table :=
  { cols := ["N° compteur", "Date", "Index"],
    rows := [[Cell.str "K1", Cell.str "2024-01-10", Cell.str "100"],
             [Cell.str "K1", Cell.str "2024-02-05", Cell.str ""],
             [Cell.str "K1", Cell.str "2023-12-01", Cell.str "50"]] }

/-- Readings with duplicate keys, a whitespace index and a missing index. -/
def t4 : Table :=
  { cols := ["N° compteur", "Date", "Index"],
    rows := [[Cell.str "A", Cell.str "2024-01-10", Cell.str "100"],
             [Cell.str "A", Cell.str "2024-02-05", Cell.str "  "],
             [Cell.str "B", Cell.str "2023-12-01", Cell.null],
             [Cell.str "B", Cell.str "2024-03-01", Cell.str "7"]] }

/-- Reference file with keys 1 (twice), 2 and 3. -/
def t5A : Table :=
  { cols := ["N° compteur"],
    rows := [[Cell.str "1"], [Cell.str "1"], [Cell.str "2"], [Cell.str "3"]] }

/-- Comparison file with keys 2, 3 and 4. -/
def t5B : Table :=
  { cols := ["N° compteur"],
    rows := [[Cell.str "2"], [Cell.str "3"], [Cell.str "4"]] }

/-- Extraction table with only the key column. -/
def t6E : Table := { cols := ["N° compteur"], rows := [[Cell.str "A"]] }

/-- Diameter table missing the `Diametre` column. -/
def t6L : Table := { cols := ["Numéro de compteur"], rows := [[Cell.str "A"]] }

/-- Readings table missing the `Date` column. -/
def t6N : Table :=
  { cols := ["N° compteur", "Index"], rows := [[Cell.str "A", Cell.str "1"]] }

/-- Comparison file with the key column. -/
def t6A : Table := { cols := ["N° compteur"], rows := [[Cell.str "A"]] }

/-- Comparison file without the key column. -/
def t6B : Table := { cols := ["Autre"], rows := [[Cell.str "A"]] }

/-- Readings with duplicates, an unparseable date and blank indexes. -/
def t7 : Table :=
  { cols := ["N° compteur", "Date", "Index"],
    rows := [[Cell.str "A", Cell.str "2024-01-10", Cell.str "100"],
             [Cell.str "A", Cell.str "05/02/2024", Cell.str ""],
             [Cell.str "B", Cell.str "pas-une-date", Cell.str "3"],
             [Cell.str "B", Cell.str "2023-12-01", Cell.str "50"],
             [Cell.str "C", Cell.str "2024-03-07", Cell.str " "]] }

/-- Readings where one date is unparseable, so in-place cleaning drops a row
of the caller's table and rewrites the `Date` column. -/
def t8 : Table :=
  { cols := ["N° compteur", "Date", "Index"],
    rows := [[Cell.str "A", Cell.str "2024-01-10", Cell.str "100"],
             [Cell.str "B", Cell.str "pas-une-date", Cell.str "7"]] }

/-- Two readings of key `K` on the same date with distinct indexes, plus an
unrelated key. -/
def t9 : Table :=
  { cols := ["N° compteur", "Date", "Index"],
    rows := [[Cell.str "Z", Cell.str "2024-05-01", Cell.str "9"],
             [Cell.str "K", Cell.str "2024-01-10", Cell.str "100"],
             [Cell.str "K", Cell.str "10/01/2024", Cell.str "50"]] }

/-- Primary table that already carries a `Diametre` column. -/
def t10P : Table :=
  { cols := ["N° compteur", "Diametre"], rows := [[Cell.str "A", Cell.str "99"]] }

/-- Lookup table for the collision scenario. -/
def t10L : Table :=
  { cols := ["Numéro de compteur", "Diametre"],
    rows := [[Cell.str "A", Cell.str "15"]] }

theorem stringDataEq {s t : String} (h : s.data = t.data) : s = t := by
  cases s
  cases t
  exact congrArg String.mk h

theorem lexLtB_trans : ∀ {a b c : List Char},
    lexLtB a b = true → lexLtB b c = true → lexLtB a c = true := by
  intro a
  induction a with
  | nil =>
    intro b c hab hbc
    cases b with
    | nil => simp [lexLtB] at hab
    | cons y ys =>
      cases c with
      | nil => simp [lexLtB] at hbc
      | cons z zs => simp [lexLtB]
  | cons x xs ih =>
    intro b c hab hbc
    cases b with
    | nil => simp [lexLtB] at hab
    | cons y ys =>
      cases c with
      | nil => simp [lexLtB] at hbc
      | cons z zs =>
        simp only [lexLtB, Bool.or_eq_true, Bool.and_eq_true, decide_eq_true_eq,
          charLtB] at hab hbc ⊢
        rcases hab with h1 | ⟨rfl, h2⟩
        · rcases hbc with h3 | ⟨rfl, h4⟩
          · exact Or.inl (lt_trans h1 h3)
          · exact Or.inl h1
        · rcases hbc with h3 | ⟨rfl, h4⟩
          · exact Or.inl h3
          · exact Or.inr ⟨rfl, ih h2 h4⟩

theorem lexLtB_conn : ∀ {a b : List Char},
    lexLtB a b = false → lexLtB b a = false → a = b := by
  intro a
  induction a with
  | nil =>
    intro b hab _
    cases b with
    | nil => rfl
    | cons y ys => simp [lexLtB] at hab
  | cons x xs ih =>
    intro b hab hba
    cases b with
    | nil => simp [lexLtB] at hba
    | cons y ys =>
      simp only [lexLtB, Bool.or_eq_false_iff, Bool.and_eq_false_iff,
        decide_eq_false_iff_not, charLtB] at hab hba
      have hxy : x = y := le_antisymm (not_lt.mp hba.1) (not_lt.mp hab.1)
      subst hxy
      rcases hab.2 with h | h
      · exact absurd rfl h
      · rcases hba.2 with h' | h'
        · exact absurd rfl h'
        · exact congrArg (x :: ·) (ih h h')

theorem lexLtB_irrefl : ∀ (a : List Char), lexLtB a a = false := by
  intro a
  induction a with
  | nil => rfl
  | cons x xs ih => simp [lexLtB, charLtB, ih]

theorem cellLtB_trans : ∀ {a b c : Cell},
    cellLtB a b = true → cellLtB b c = true → cellLtB a c = true := by
  intro a b c h1 h2
  cases a <;> cases b <;> cases c <;>
    simp only [cellLtB, strLtB, decide_eq_true_eq] at h1 h2 ⊢ <;>
    first
    | rfl
    | exact Bool.noConfusion h1
    | exact Bool.noConfusion h2
    | exact lexLtB_trans h1 h2
    | omega

theorem cellLtB_conn : ∀ {a b : Cell},
    cellLtB a b = false → cellLtB b a = false → a = b := by
  intro a b h1 h2
  cases a <;> cases b <;>
    simp only [cellLtB, strLtB, decide_eq_false_iff_not] at h1 h2 <;>
    first
    | rfl
    | exact Bool.noConfusion h1
    | exact Bool.noConfusion h2
    | exact congrArg Cell.str (stringDataEq (lexLtB_conn h1 h2))
    | exact congrArg Cell.date (Nat.le_antisymm (Nat.le_of_not_lt h2) (Nat.le_of_not_lt h1))

theorem cellLtB_irrefl (a : Cell) : cellLtB a a = false := by
  cases a <;> simp [cellLtB, strLtB, lexLtB_irrefl]

theorem cellLtB_asymm {a b : Cell} (h : cellLtB a b = true) : cellLtB b a = false := by
  cases hba : cellLtB b a with
  | false => rfl
  | true =>
    have h2 := cellLtB_trans h hba
    rw [cellLtB_irrefl] at h2
    exact Bool.noConfusion h2

theorem cellLtB_negtrans {a b c : Cell} (h1 : cellLtB a b = false)
    (h2 : cellLtB b c = false) : cellLtB a c = false := by
  cases hac : cellLtB a c with
  | false => rfl
  | true =>
    cases hcb : cellLtB c b with
    | true =>
      have h3 := cellLtB_trans hac hcb
      rw [h1] at h3
      exact Bool.noConfusion h3
    | false =>
      have hbc : b = c := cellLtB_conn h2 hcb
      subst hbc
      rw [hac] at h1
      exact Bool.noConfusion h1

theorem leRow_total (cols : List String) (r1 r2 : List Cell) :
    leRow cols r1 r2 = true ∨ leRow cols r2 r1 = true := by
  unfold leRow
  cases hk : cellLtB (keyCell cols r1) (keyCell cols r2) with
  | true => exact Or.inl (by simp [hk])
  | false =>
    cases hk2 : cellLtB (keyCell cols r2) (keyCell cols r1) with
    | true => exact Or.inr (by simp [hk2])
    | false =>
      have he : keyCell cols r1 = keyCell cols r2 := cellLtB_conn hk hk2
      cases hd : cellLtB (dateCell cols r1) (dateCell cols r2) with
      | false => exact Or.inl (by simp [hk, he, hd])
      | true =>
        have hd2 : cellLtB (dateCell cols r2) (dateCell cols r1) = false := cellLtB_asymm hd
        exact Or.inr (by simp [hk2, he, hd2])

theorem leRow_trans (cols : List String) {r1 r2 r3 : List Cell}
    (h1 : leRow cols r1 r2 = true) (h2 : leRow cols r2 r3 = true) :
    leRow cols r1 r3 = true := by
  simp only [leRow, Bool.or_eq_true, Bool.and_eq_true, decide_eq_true_eq,
    Bool.not_eq_true'] at h1 h2 ⊢
  rcases h1 with h1 | ⟨hk1, hd1⟩
  · rcases h2 with h2 | ⟨hk2, hd2⟩
    · exact Or.inl (cellLtB_trans h1 h2)
    · exact Or.inl (by rw [← hk2]; exact h1)
  · rcases h2 with h2 | ⟨hk2, hd2⟩
    · exact Or.inl (by rw [hk1]; exact h2)
    · exact Or.inr ⟨hk1.trans hk2, cellLtB_negtrans hd1 hd2⟩

theorem mem_insertLe {α : Type} (le : α → α → Bool) (a x : α) :
    ∀ l : List α, (x ∈ insertLe le a l ↔ x = a ∨ x ∈ l) := by
  intro l
  induction l with
  | nil => simp [insertLe]
  | cons b l ih =>
    by_cases h : le a b = true
    · simp only [insertLe, if_pos h, List.mem_cons]
    · simp only [insertLe, if_neg h, List.mem_cons, ih]
      tauto

theorem mem_isort {α : Type} (le : α → α → Bool) (x : α) :
    ∀ l : List α, (x ∈ isort le l ↔ x ∈ l) := by
  intro l
  induction l with
  | nil => simp [isort]
  | cons a l ih =>
    show x ∈ insertLe le a (isort le l) ↔ _
    rw [mem_insertLe, ih]
    simp [List.mem_cons]

theorem pairwise_insertLe {α : Type} {le : α → α → Bool}
    (htr : ∀ x y z : α, le x y = true → le y z = true → le x z = true)
    (hto : ∀ x y : α, le x y = true ∨ le y x = true) (a : α) :
    ∀ l : List α, l.Pairwise (fun x y => le x y = true) →
      (insertLe le a l).Pairwise (fun x y => le x y = true) := by
  intro l
  induction l with
  | nil => intro _; simp [insertLe]
  | cons b l ih =>
    intro hp
    rcases List.pairwise_cons.mp hp with ⟨hb, hl⟩
    by_cases h : le a b = true
    · simp only [insertLe, if_pos h]
      refine List.pairwise_cons.mpr ⟨?_, hp⟩
      intro y hy
      rcases List.mem_cons.mp hy with rfl | hy'
      · exact h
      · exact htr a b y h (hb y hy')
    · simp only [insertLe, if_neg h]
      refine List.pairwise_cons.mpr ⟨?_, ih hl⟩
      intro y hy
      rcases (mem_insertLe le a y l).mp hy with rfl | hy'
      · rcases hto y b with h' | h'
        · exact absurd h' h
        · exact h'
      · exact hb y hy'

theorem pairwise_isort {α : Type} {le : α → α → Bool}
    (htr : ∀ x y z : α, le x y = true → le y z = true → le x z = true)
    (hto : ∀ x y : α, le x y = true ∨ le y x = true) :
    ∀ l : List α, (isort le l).Pairwise (fun x y => le x y = true) := by
  intro l
  induction l with
  | nil => simp [isort]
  | cons a l ih => exact pairwise_insertLe htr hto a (isort le l) ih

theorem isort_of_pairwise {α : Type} {le : α → α → Bool} :
    ∀ {l : List α}, l.Pairwise (fun x y => le x y = true) → isort le l = l := by
  intro l
  induction l with
  | nil => intro _; rfl
  | cons a l ih =>
    intro hp
    rcases List.pairwise_cons.mp hp with ⟨ha, hl⟩
    show insertLe le a (isort le l) = a :: l
    rw [ih hl]
    cases l with
    | nil => rfl
    | cons b l' =>
      simp only [insertLe, if_pos (ha b (List.mem_cons_self b l'))]

theorem filter_insertLe_neg {α : Type} {le : α → α → Bool} {p : α → Bool} {a : α}
    (hpa : p a = false) :
    ∀ l : List α, (insertLe le a l).filter p = l.filter p := by
  intro l
  induction l with
  | nil => simp [insertLe, List.filter_cons, hpa]
  | cons b l ih =>
    by_cases h : le a b = true
    · simp only [insertLe, if_pos h]
      simp [List.filter_cons, hpa]
    · simp only [insertLe, if_neg h]
      simp only [List.filter_cons, ih]

theorem filter_insertLe_pos {α : Type} {le : α → α → Bool} {p : α → Bool} {a : α}
    (hpa : p a = true) :
    ∀ l : List α, (∀ x ∈ l, p x = true → le a x = true) →
      (insertLe le a l).filter p = a :: l.filter p := by
  intro l
  induction l with
  | nil => intro _; simp [insertLe, List.filter_cons, hpa]
  | cons b l ih =>
    intro h
    by_cases hab : le a b = true
    · simp only [insertLe, if_pos hab]
      simp [List.filter_cons, hpa]
    · have hpb : p b = false := by
        cases hpb : p b with
        | false => rfl
        | true => exact absurd (h b (List.mem_cons_self b l) hpb) hab
      simp only [insertLe, if_neg hab]
      simp only [List.filter_cons, hpb]
      simp only [Bool.false_eq_true, if_false]
      exact ih (fun x hx hpx => h x (List.mem_cons_of_mem b hx) hpx)

theorem filter_isort {α : Type} {le : α → α → Bool} {p : α → Bool} :
    ∀ l : List α,
      (∀ x ∈ l, ∀ y ∈ l, p x = true → p y = true → le x y = true) →
      (isort le l).filter p = l.filter p := by
  intro l
  induction l with
  | nil => intro _; rfl
  | cons a l ih =>
    intro heq
    have heq2 : ∀ x ∈ l, ∀ y ∈ l, p x = true → p y = true → le x y = true :=
      fun x hx y hy => heq x (List.mem_cons_of_mem a hx) y (List.mem_cons_of_mem a hy)
    show (insertLe le a (isort le l)).filter p = (a :: l).filter p
    by_cases hpa : p a = true
    · have harg : ∀ x ∈ isort le l, p x = true → le a x = true := by
        intro x hx hpx
        exact heq a (List.mem_cons_self a l) x
          (List.mem_cons_of_mem a ((mem_isort le x l).mp hx)) hpa hpx
      rw [filter_insertLe_pos hpa (isort le l) harg, ih heq2]
      simp [List.filter_cons, hpa]
    · have hpa2 : p a = false := by
        cases hq : p a
        · rfl
        · exact absurd hq hpa
      rw [filter_insertLe_neg hpa2 (isort le l), ih heq2]
      simp [List.filter_cons, hpa2]

theorem dedupAux_sublist {α β : Type} [DecidableEq β] (key : α → β) :
    ∀ (l : List α) (seen : List β), (dedupAux key seen l).Sublist l := by
  intro l
  induction l with
  | nil => intro seen; exact List.Sublist.refl []
  | cons r rs ih =>
    intro seen
    by_cases h : key r ∈ seen
    · simp only [dedupAux, if_pos h]
      exact List.Sublist.cons r (ih seen)
    · simp only [dedupAux, if_neg h]
      exact List.Sublist.cons₂ r (ih (key r :: seen))

theorem dedupAux_key_not_seen {α β : Type} [DecidableEq β] (key : α → β) :
    ∀ (l : List α) (seen : List β) (x : α), x ∈ dedupAux key seen l → key x ∉ seen := by
  intro l
  induction l with
  | nil => intro seen x hx; simp [dedupAux] at hx
  | cons r rs ih =>
    intro seen x hx
    by_cases h : key r ∈ seen
    · simp only [dedupAux, if_pos h] at hx
      exact ih seen x hx
    · simp only [dedupAux, if_neg h] at hx
      rcases List.mem_cons.mp hx with rfl | hx'
      · exact h
      · intro hseen
        exact (ih (key r :: seen) x hx') (List.mem_cons_of_mem _ hseen)

theorem dedupAux_pairwise {α β : Type} [DecidableEq β] (key : α → β) :
    ∀ (l : List α) (seen : List β),
      (dedupAux key seen l).Pairwise (fun x y => key x ≠ key y) := by
  intro l
  induction l with
  | nil => intro seen; simp [dedupAux]
  | cons r rs ih =>
    intro seen
    by_cases h : key r ∈ seen
    · simp only [dedupAux, if_pos h]
      exact ih seen
    · simp only [dedupAux, if_neg h]
      refine List.pairwise_cons.mpr ⟨?_, ih (key r :: seen)⟩
      intro y hy heq
      apply dedupAux_key_not_seen key rs (key r :: seen) y hy
      rw [← heq]
      exact List.mem_cons_self _ _

theorem dedupAux_eq_self {α β : Type} [DecidableEq β] (key : α → β) :
    ∀ (l : List α) (seen : List β),
      l.Pairwise (fun x y => key x ≠ key y) → (∀ x ∈ l, key x ∉ seen) →
      dedupAux key seen l = l := by
  intro l
  induction l with
  | nil => intro seen _ _; rfl
  | cons r rs ih =>
    intro seen hp hs
    have hr : key r ∉ seen := hs r (List.mem_cons_self r rs)
    simp only [dedupAux, if_neg hr]
    congr 1
    apply ih (key r :: seen) (List.pairwise_cons.mp hp).2
    intro x hx hmem
    rcases List.mem_cons.mp hmem with heq | hseen
    · exact ((List.pairwise_cons.mp hp).1 x hx) heq.symm
    · exact hs x (List.mem_cons_of_mem r hx) hseen

theorem dedupAux_filter_key_seen {α β : Type} [DecidableEq β] (key : α → β) (k : β)
    (l : List α) (seen : List β) (hk : k ∈ seen) :
    (dedupAux key seen l).filter (fun x => key x == k) = [] := by
  rw [List.filter_eq_nil_iff]
  intro x hx hbe
  have hns := dedupAux_key_not_seen key l seen x hx
  rw [eq_of_beq hbe] at hns
  exact hns hk

theorem dedupAux_filter_key {α β : Type} [DecidableEq β] (key : α → β) (k : β) :
    ∀ (l : List α) (seen : List β), k ∉ seen →
      (dedupAux key seen l).filter (fun x => key x == k) =
        (l.filter (fun x => key x == k)).take 1 := by
  intro l
  induction l with
  | nil => intro seen _; rfl
  | cons r rs ih =>
    intro seen hk
    by_cases h : key r ∈ seen
    · have hne : (key r == k) = false := by
        cases hbe : key r == k with
        | false => rfl
        | true =>
          rw [eq_of_beq hbe] at h
          exact absurd h hk
      simp only [dedupAux, if_pos h, List.filter_cons, hne]
      simp only [Bool.false_eq_true, if_false]
      exact ih seen hk
    · simp only [dedupAux, if_neg h, List.filter_cons]
      cases hbe : (key r == k) with
      | true =>
        simp only [if_true]
        have hkr : key r = k := eq_of_beq hbe
        rw [dedupAux_filter_key_seen key k rs (key r :: seen)
          (by rw [hkr]; exact List.mem_cons_self _ _)]
        simp [List.take_succ_cons]
      | false =>
        simp only [Bool.false_eq_true, if_false]
        apply ih (key r :: seen)
        intro hmem
        rcases List.mem_cons.mp hmem with heq | hseen
        · rw [heq, beq_self_eq_true] at hbe
          exact Bool.noConfusion hbe
        · exact hk hseen

theorem findIdx?_some_spec {α : Type} (p : α → Bool) (d : α) :
    ∀ (l : List α) (s i : Nat), List.findIdx? p l s = some i →
      ∃ j, i = s + j ∧ j < l.length ∧ p (l.getD j d) = true := by
  intro l
  induction l with
  | nil => intro s i h; simp [List.findIdx?] at h
  | cons x xs ih =>
    intro s i h
    rw [List.findIdx?_cons] at h
    by_cases hp : p x = true
    · rw [if_pos hp] at h
      refine ⟨0, ?_, by simp, by simpa using hp⟩
      injection h with h'
      omega
    · rw [if_neg hp] at h
      obtain ⟨j, rfl, hj, hpj⟩ := ih (s + 1) i h
      exact ⟨j + 1, by omega, by simp; omega, by simpa using hpj⟩

theorem findIdx?_mem_isSome {c : String} :
    ∀ (l : List String) (s : Nat), c ∈ l →
      ∃ i, List.findIdx? (fun x => x == c) l s = some i := by
  intro l
  induction l with
  | nil => intro s h; exact absurd h (List.not_mem_nil c)
  | cons y ys ih =>
    intro s h
    rw [List.findIdx?_cons]
    by_cases hy : (y == c) = true
    · exact ⟨s, by rw [if_pos hy]⟩
    · rcases List.mem_cons.mp h with rfl | h'
      · rw [beq_self_eq_true] at hy
        exact absurd rfl hy
      · rw [if_neg hy]
        exact ih (s + 1) h'

theorem findIdx?_col_ne {cols : List String} {c1 c2 : String} {i j : Nat}
    (hne : c1 ≠ c2)
    (h1 : cols.findIdx? (fun x => x == c1) = some i)
    (h2 : cols.findIdx? (fun x => x == c2) = some j) : i ≠ j := by
  intro hij
  subst hij
  obtain ⟨a, ha0, _, hpa⟩ := findIdx?_some_spec (fun x => x == c1) "" cols 0 i h1
  obtain ⟨b, hb0, _, hpb⟩ := findIdx?_some_spec (fun x => x == c2) "" cols 0 i h2
  have hab : a = b := by omega
  subst hab
  exact hne ((eq_of_beq hpa).symm.trans (eq_of_beq hpb))

theorem getD_set_ne {l : List Cell} {i j : Nat} (h : i ≠ j) (v d : Cell) :
    (l.set i v).getD j d = l.getD j d := by
  rw [List.getD_eq_getElem?_getD, List.getD_eq_getElem?_getD, List.getElem?_set_ne h]

theorem set_self_of_getD {l : List Cell} {i : Nat} {v : Cell}
    (h : l.getD i Cell.null = v) : l.set i v = l := by
  by_cases hi : i < l.length
  · apply List.ext_getElem?
    intro n
    by_cases hn : i = n
    · subst hn
      rw [List.getElem?_set_self hi, List.getElem?_eq_getElem hi]
      rw [List.getD_eq_getElem?_getD, List.getElem?_eq_getElem hi] at h
      simp at h
      rw [h]
    · rw [List.getElem?_set_ne hn]
  · exact List.set_eq_of_length_le (by omega)

theorem parseDates_cols (t : Table) : (parseDates t).cols = t.cols := by
  rcases h : t.cols.findIdx? (fun x => x == "Date") with _ | i <;>
    simp [parseDates, h]

theorem parseDates_mem {t : Table} {i : Nat}
    (hi : t.cols.findIdx? (fun x => x == "Date") = some i) :
    ∀ r ∈ (parseDates t).rows,
      ∃ r₀ ∈ t.rows, ∃ d, parseDate (r₀.getD i Cell.null) = some d ∧
        r = r₀.set i (Cell.date d) := by
  intro r hr
  simp only [parseDates, hi] at hr
  obtain ⟨r₀, hr₀, hg⟩ := List.mem_filterMap.mp hr
  rcases hpd : parseDate (r₀.getD i Cell.null) with _ | d
  · rw [hpd] at hg
    exact Option.noConfusion hg
  · rw [hpd] at hg
    injection hg with hg'
    exact ⟨r₀, hr₀, d, hpd, hg'.symm⟩

theorem getD_set_self {l : List Cell} {i : Nat} (hi : i < l.length) (v d : Cell) :
    (l.set i v).getD i d = v := by
  rw [List.getD_eq_getElem?_getD, List.getElem?_set_self hi]
  rfl

theorem parseDates_mem_date {t : Table} {i : Nat}
    (hi : t.cols.findIdx? (fun x => x == "Date") = some i) :
    ∀ r ∈ (parseDates t).rows,
      ∃ d, r.getD i Cell.null = Cell.date d ∧ r.set i (Cell.date d) = r := by
  intro r hr
  obtain ⟨r₀, hr₀, d, hpd, rfl⟩ := parseDates_mem hi r hr
  have hlen : i < r₀.length := by
    by_contra hle
    rw [List.getD_eq_default _ _ (by omega)] at hpd
    simp [parseDate] at hpd
  refine ⟨d, getD_set_self hlen _ _, ?_⟩
  rw [List.set_set]

theorem filterMap_id_of_mem {α : Type} (g : α → Option α) :
    ∀ l : List α, (∀ x ∈ l, g x = some x) → l.filterMap g = l := by
  intro l
  induction l with
  | nil => intro _; rfl
  | cons a l ih =>
    intro h
    simp only [List.filterMap_cons, h a (List.mem_cons_self a l)]
    rw [ih (fun x hx => h x (List.mem_cons_of_mem a hx))]

theorem parseDates_eq_self {t : Table} {i : Nat}
    (hi : t.cols.findIdx? (fun x => x == "Date") = some i)
    (h : ∀ r ∈ t.rows, ∃ d, r.getD i Cell.null = Cell.date d) :
    parseDates t = t := by
  rcases t with ⟨cols, rows⟩
  simp only [parseDates, hi, Table.mk.injEq, true_and]
  apply filterMap_id_of_mem
  intro r hr
  obtain ⟨d, hd⟩ := h r hr
  rw [hd]
  simp only [parseDate]
  rw [set_self_of_getD hd]

theorem getCellC_set_ne {cols : List String} {c : String} {j i : Nat}
    (hj : cols.findIdx? (fun x => x == c) = some j) (hne : j ≠ i)
    (r : List Cell) (v : Cell) :
    getCellC cols (r.set i v) c = getCellC cols r c := by
  simp only [getCellC, hj]
  exact getD_set_ne (fun h => hne h.symm) v Cell.null

theorem nettoyer_fichier_ok (df : Table)
    (h : "N° compteur" ∈ df.cols ∧ "Date" ∈ df.cols ∧ "Index" ∈ df.cols) :
    nettoyer_fichier df =
      ({ cols := df.cols,
         rows := dedupAux (keyCell df.cols) []
           ((isort (leRow df.cols) (parseDates df).rows).filter (validIndexB df.cols)) },
       none) := by
  simp only [nettoyer_fichier, if_pos h, parseDates_cols]

theorem nettoyer_rows_spec (df : Table)
    (h : "N° compteur" ∈ df.cols ∧ "Date" ∈ df.cols ∧ "Index" ∈ df.cols) :
    ((nettoyer_fichier df).1.rows.Pairwise (fun x y => leRow df.cols x y = true)) ∧
    (∀ r ∈ (nettoyer_fichier df).1.rows, validIndexB df.cols r = true) ∧
    ((nettoyer_fichier df).1.rows.Pairwise
      (fun x y => keyCell df.cols x ≠ keyCell df.cols y)) ∧
    (∀ r ∈ (nettoyer_fichier df).1.rows, r ∈ (parseDates df).rows) := by
  rw [nettoyer_fichier_ok df h]
  dsimp only
  have hps : (isort (leRow df.cols) (parseDates df).rows).Pairwise
      (fun x y => leRow df.cols x y = true) :=
    @pairwise_isort _ (leRow df.cols)
      (fun x y z hxy hyz => leRow_trans df.cols hxy hyz)
      (leRow_total df.cols) (parseDates df).rows
  have hsub := dedupAux_sublist (keyCell df.cols)
    ((isort (leRow df.cols) (parseDates df).rows).filter (validIndexB df.cols)) []
  refine ⟨?_, ?_, ?_, ?_⟩
  · exact List.Pairwise.sublist hsub (hps.filter (validIndexB df.cols))
  · intro r hr
    exact (List.mem_filter.mp (hsub.subset hr)).2
  · exact dedupAux_pairwise (keyCell df.cols) _ []
  · intro r hr
    have := (List.mem_filter.mp (hsub.subset hr)).1
    exact (mem_isort (leRow df.cols) r _).mp this

/-- Claim C7: `nettoyer_fichier` (dedupe_latest_valid) is idempotent — applied
to its own output it returns that output unchanged. -/
theorem c7_dedupe_idempotent (T : Table)
    (h1 : "N° compteur" ∈ T.cols) (h2 : "Date" ∈ T.cols) (h3 : "Index" ∈ T.cols) :
    nettoyer_fichier ((nettoyer_fichier T).1) = nettoyer_fichier T := by
  have hcon : "N° compteur" ∈ T.cols ∧ "Date" ∈ T.cols ∧ "Index" ∈ T.cols := ⟨h1, h2, h3⟩
  obtain ⟨i, hi⟩ := findIdx?_mem_isSome T.cols 0 h2
  obtain ⟨hsorted, hvalid, hkeys, hmemP⟩ := nettoyer_rows_spec T hcon
  have hok := nettoyer_fichier_ok T hcon
  rw [hok] at hsorted hvalid hkeys hmemP ⊢
  dsimp only at hsorted hvalid hkeys hmemP ⊢
  set RR := dedupAux (keyCell T.cols) []
      ((isort (leRow T.cols) (parseDates T).rows).filter (validIndexB T.cols)) with hRRdef
  rw [nettoyer_fichier_ok { cols := T.cols, rows := RR } hcon]
  have hpdT' : parseDates { cols := T.cols, rows := RR } = { cols := T.cols, rows := RR } := by
    refine @parseDates_eq_self { cols := T.cols, rows := RR } i hi ?_
    intro r hr
    obtain ⟨d, hd, _⟩ := parseDates_mem_date hi r (hmemP r hr)
    exact ⟨d, hd⟩
  rw [hpdT']
  dsimp only
  rw [isort_of_pairwise hsorted]
  rw [List.filter_eq_self.mpr hvalid]
  rw [dedupAux_eq_self (keyCell T.cols) RR [] hkeys (fun x _ => List.not_mem_nil _)]

theorem contains_iff_mem {α : Type} [BEq α] [LawfulBEq α] (l : List α) (a : α) :
    l.contains a = true ↔ a ∈ l := by
  simp [List.contains, List.elem_iff]

/-- Claim C3 counterexample: on the three K1 rows of the scenario, the row
(date 2023-12-01, index "50") claimed to be kept is in fact absent from the
output of `nettoyer_fichier` (the code keeps the 2024-01-10 row, which is the
most recent one with a non-empty index). -/
theorem c3_counterexample :
    ¬ ([Cell.str "K1", Cell.date 20231201, Cell.str "50"]
        ∈ (nettoyer_fichier t3K1).1.rows) ∧
    ¬ ([Cell.str "K1", Cell.str "2023-12-01", Cell.str "50"]
        ∈ (nettoyer_fichier t3K1).1.rows) := by
  decide

/-- Claim C3 as amended: on the three K1 rows, `nettoyer_fichier` keeps
exactly the row (date 2024-01-10, index "100") — the most recent row among
those with a non-empty index — and not the February row with the empty index
nor the December row. -/
theorem c3_amended :
    (nettoyer_fichier t3K1).1.rows =
      [[Cell.str "K1", Cell.date 20240110, Cell.str "100"]] := by
  decide

/-- Claim C4: for any table with the three required columns, the output of
`nettoyer_fichier` carries pairwise distinct keys (at most one row per key)
and every retained row has a non-null index that is non-empty after
trimming. -/
theorem c4_key_unique_valid_index (T : Table)
    (h1 : "N° compteur" ∈ T.cols) (h2 : "Date" ∈ T.cols) (h3 : "Index" ∈ T.cols) :
    ((nettoyer_fichier T).1.rows.Pairwise
      (fun x y => keyCell T.cols x ≠ keyCell T.cols y)) ∧
    (∀ r ∈ (nettoyer_fichier T).1.rows,
      indexCell T.cols r ≠ Cell.null ∧
      strTrim (cellToStr (indexCell T.cols r)) ≠ "") := by
  obtain ⟨_, hvalid, hkeys, _⟩ := nettoyer_rows_spec T ⟨h1, h2, h3⟩
  refine ⟨hkeys, ?_⟩
  intro r hr
  have hv := hvalid r hr
  simp only [validIndexB, Bool.and_eq_true, decide_eq_true_eq] at hv
  exact hv

/-- Claim C4 witness at a concrete table with duplicate keys, a whitespace
index and a missing index. -/
theorem c4_witness :
    ("N° compteur" ∈ t4.cols ∧ "Date" ∈ t4.cols ∧ "Index" ∈ t4.cols) ∧
    (((nettoyer_fichier t4).1.rows.Pairwise
        (fun x y => keyCell t4.cols x ≠ keyCell t4.cols y)) ∧
      (∀ r ∈ (nettoyer_fichier t4).1.rows,
        indexCell t4.cols r ≠ Cell.null ∧
        strTrim (cellToStr (indexCell t4.cols r)) ≠ "")) :=
  ⟨by decide, c4_key_unique_valid_index t4 (by decide) (by decide) (by decide)⟩

/-- Claim C5: when both tables carry the key column, `comparer_fichiers`
returns exactly the rows of the first table whose key is absent from the
second table's keys, keeping the first table's columns, order and
multiplicity (the result is an order-preserving sublist). -/
theorem c5_set_difference (A B : Table)
    (hA : "N° compteur" ∈ A.cols) (hB : "N° compteur" ∈ B.cols) :
    (comparer_fichiers A B).1.rows =
      A.rows.filter
        (fun r => !((B.rows.map (fun r2 => keyCell B.cols r2)).contains
          (keyCell A.cols r))) ∧
    (comparer_fichiers A B).1.cols = A.cols ∧
    (comparer_fichiers A B).1.rows.Sublist A.rows := by
  have hcon : "N° compteur" ∈ A.cols ∧ "N° compteur" ∈ B.cols := ⟨hA, hB⟩
  simp only [comparer_fichiers, if_pos hcon]
  refine ⟨?_, trivial, List.filter_sublist A.rows⟩
  apply List.filter_congr
  intro r hr
  cases hc : (B.rows.map (fun r2 => keyCell B.cols r2)).contains (keyCell A.cols r) with
  | true =>
    simp only [Bool.not_true]
    cases hl : ((A.rows.map (fun r2 => keyCell A.cols r2)).filter
        (fun k => !((B.rows.map (fun r2 => keyCell B.cols r2)).contains k))).contains
        (keyCell A.cols r) with
    | false => rfl
    | true =>
      have hm := (contains_iff_mem _ _).mp hl
      have hq := (List.mem_filter.mp hm).2
      rw [hc] at hq
      exact Bool.noConfusion hq
  | false =>
    simp only [Bool.not_false]
    apply (contains_iff_mem _ _).mpr
    apply List.mem_filter.mpr
    refine ⟨List.mem_map_of_mem _ hr, ?_⟩
    rw [hc]
    rfl

/-- Claim C5 witness: reference keys 1,1,2,3 against keys 2,3,4 — both rows
keyed 1 come back, in order. -/
theorem c5_witness :
    ("N° compteur" ∈ t5A.cols ∧ "N° compteur" ∈ t5B.cols) ∧
    ((comparer_fichiers t5A t5B).1.rows =
        t5A.rows.filter
          (fun r => !((t5B.rows.map (fun r2 => keyCell t5B.cols r2)).contains
            (keyCell t5A.cols r))) ∧
      (comparer_fichiers t5A t5B).1.cols = t5A.cols ∧
      (comparer_fichiers t5A t5B).1.rows.Sublist t5A.rows) :=
  ⟨by decide, c5_set_difference t5A t5B (by decide) (by decide)⟩

/-- Claim C8 (code bug): `nettoyer_fichier` mutates its caller's table: after
the call on `t8`, the caller's table has its `Date` column overwritten with
parsed dates and the row with the unparseable date removed, so the input is
not left unchanged (the page then reports "Lignes avant" from the mutated
table). -/
theorem c8_input_mutated :
    nettoyer_fichier_post t8 ≠ t8 ∧
    nettoyer_fichier_post t8 =
      { cols := ["N° compteur", "Date", "Index"],
        rows := [[Cell.str "A", Cell.date 20240110, Cell.str "100"]] } ∧
    (nettoyer_fichier_post t8).rows.length ≠ t8.rows.length := by
  decide

/-- Claim C6 counterexample: with the lookup table lacking only `Diametre`,
`ajouter_diametres` signals a fixed message that also names the present
column `Numéro de compteur`, so the signalled error does not name exactly
the missing columns. -/
theorem c6_counterexample :
    "Numéro de compteur" ∈ t6L.cols ∧
    ¬ ("Diametre" ∈ t6L.cols) ∧
    (ajouter_diametres t6E t6L).2 =
      some "Le fichier des diamètres doit avoir les colonnes \x27Numéro de compteur\x27 et \x27Diametre\x27." ∧
    msgNames
      "Le fichier des diamètres doit avoir les colonnes \x27Numéro de compteur\x27 et \x27Diametre\x27."
      "Numéro de compteur" = true := by
  decide

/-- Claim C6 as amended: on any input missing a required column each of the
three operations returns the empty table and signals an error message through
the display channel (nettoyer_fichier's message lists exactly the missing
columns, while ajouter_diametres and comparer_fichiers use fixed messages
that may also name present columns). -/
theorem c6_schema_failure (dfn dfe dfd dfa dfb : Table)
    (hn : "N° compteur" ∉ dfn.cols ∨ "Date" ∉ dfn.cols ∨ "Index" ∉ dfn.cols)
    (he : "N° compteur" ∉ dfe.cols ∨ "Numéro de compteur" ∉ dfd.cols ∨
      "Diametre" ∉ dfd.cols)
    (hc : "N° compteur" ∉ dfa.cols ∨ "N° compteur" ∉ dfb.cols) :
    ((nettoyer_fichier dfn).1 = Table.empty ∧
      (nettoyer_fichier dfn).2.isSome = true) ∧
    ((ajouter_diametres dfe dfd).1 = Table.empty ∧
      (ajouter_diametres dfe dfd).2.isSome = true) ∧
    ((comparer_fichiers dfa dfb).1 = Table.empty ∧
      (comparer_fichiers dfa dfb).2.isSome = true) := by
  refine ⟨?_, ?_, ?_⟩
  · have hcond : ¬ ("N° compteur" ∈ dfn.cols ∧ "Date" ∈ dfn.cols ∧ "Index" ∈ dfn.cols) := by
      tauto
    simp only [nettoyer_fichier, if_neg hcond]
    exact ⟨trivial, rfl⟩
  · by_cases h1 : "N° compteur" ∉ dfe.cols
    · simp only [ajouter_diametres, if_pos h1]
      exact ⟨trivial, rfl⟩
    · have h2 : "Numéro de compteur" ∉ dfd.cols ∨ "Diametre" ∉ dfd.cols := by tauto
      simp only [ajouter_diametres, if_neg h1, if_pos h2]
      exact ⟨trivial, rfl⟩
  · have hcond : ¬ ("N° compteur" ∈ dfa.cols ∧ "N° compteur" ∈ dfb.cols) := by tauto
    simp only [comparer_fichiers, if_neg hcond]
    exact ⟨trivial, rfl⟩

/-- Claim C6 witness at concrete tables, one missing column per operation. -/
theorem c6_witness :
    (("N° compteur" ∉ t6N.cols ∨ "Date" ∉ t6N.cols ∨ "Index" ∉ t6N.cols) ∧
      ("N° compteur" ∉ t6E.cols ∨ "Numéro de compteur" ∉ t6L.cols ∨
        "Diametre" ∉ t6L.cols) ∧
      ("N° compteur" ∉ t6A.cols ∨ "N° compteur" ∉ t6B.cols)) ∧
    (((nettoyer_fichier t6N).1 = Table.empty ∧
        (nettoyer_fichier t6N).2.isSome = true) ∧
      ((ajouter_diametres t6E t6L).1 = Table.empty ∧
        (ajouter_diametres t6E t6L).2.isSome = true) ∧
      ((comparer_fichiers t6A t6B).1 = Table.empty ∧
        (comparer_fichiers t6A t6B).2.isSome = true)) :=
  ⟨⟨by decide, by decide, by decide⟩,
    c6_schema_failure t6N t6E t6L t6A t6B (by decide) (by decide) (by decide)⟩

theorem ajouter_ok (P L : Table)
    (hp : "N° compteur" ∈ P.cols)
    (hl1 : "Numéro de compteur" ∈ L.cols) (hl2 : "Diametre" ∈ L.cols) :
    ajouter_diametres P L =
      (dropColumn
        (mergeLeft P (projectCols L ["Numéro de compteur", "Diametre"])
          "N° compteur" "Numéro de compteur")
        "Numéro de compteur", none) := by
  have h2 : ¬ ("Numéro de compteur" ∉ L.cols ∨ "Diametre" ∉ L.cols) := by tauto
  simp only [ajouter_diametres, if_neg (not_not_intro hp), if_neg h2]

/-- Claim C10: when the primary table already carries a `Diametre` column
(and no `Numéro de compteur` column), the merge suffixes the collision: the
output columns are the primary's with `Diametre` renamed `Diametre_x`,
followed by `Diametre_y` carrying the joined values, so no single `Diametre`
column survives and the primary's original column names are not all
preserved. -/
theorem c10_diametre_collision (P L : Table)
    (hp : "N° compteur" ∈ P.cols) (hd : "Diametre" ∈ P.cols)
    (hn : "Numéro de compteur" ∉ P.cols)
    (hl1 : "Numéro de compteur" ∈ L.cols) (hl2 : "Diametre" ∈ L.cols) :
    (ajouter_diametres P L).1.cols =
      P.cols.map (fun c => if c = "Diametre" then "Diametre_x" else c)
        ++ ["Diametre_y"] ∧
    "Diametre" ∉ (ajouter_diametres P L).1.cols := by
  rw [ajouter_ok P L hp hl1 hl2]
  dsimp only
  have hsufx : suffixCols P.cols ["Numéro de compteur", "Diametre"] "_x" =
      P.cols.map (fun c => if c = "Diametre" then "Diametre_x" else c) := by
    apply List.map_congr_left
    intro c hc
    by_cases hcd : c = "Diametre"
    · subst hcd
      rw [if_pos (by decide), if_pos rfl]
      decide
    · have hcn : c ≠ "Numéro de compteur" := fun h => hn (h ▸ hc)
      rw [if_neg ?_, if_neg hcd]
      intro hmem
      simp only [List.mem_cons, List.mem_singleton, List.not_mem_nil,
        or_false] at hmem
      rcases hmem with rfl | rfl
      · exact hcn rfl
      · exact hcd rfl
  have hsufy : suffixCols ["Numéro de compteur", "Diametre"] P.cols "_y" =
      ["Numéro de compteur", "Diametre_y"] := by
    simp only [suffixCols, List.map_cons, List.map_nil, if_neg hn, if_pos hd]
    decide
  have hnone : List.findIdx? (fun x => x == "Numéro de compteur")
      (P.cols.map (fun c => if c = "Diametre" then "Diametre_x" else c)) = none := by
    rw [List.findIdx?_eq_none_iff]
    intro x hx
    obtain ⟨c, hc, rfl⟩ := List.mem_map.mp hx
    rw [beq_eq_false_iff_ne]
    by_cases hcd : c = "Diametre"
    · subst hcd
      rw [if_pos rfl]
      decide
    · rw [if_neg hcd]
      exact fun h => hn (h ▸ hc)
  have hcols : (dropColumn
      (mergeLeft P (projectCols L ["Numéro de compteur", "Diametre"])
        "N° compteur" "Numéro de compteur")
      "Numéro de compteur").cols =
      P.cols.map (fun c => if c = "Diametre" then "Diametre_x" else c)
        ++ ["Diametre_y"] := by
    unfold dropColumn mergeLeft
    dsimp only [projectCols]
    rw [hsufx, hsufy, List.findIdx?_append, hnone]
    have hfr : List.findIdx? (fun x => x == "Numéro de compteur")
        ["Numéro de compteur", "Diametre_y"] = some 0 := rfl
    rw [hfr]
    dsimp only [Option.or, Option.map]
    rw [List.eraseIdx_append_of_length_le (by simp)]
    simp
  refine ⟨hcols, ?_⟩
  rw [hcols]
  intro hmem
  rcases List.mem_append.mp hmem with h | h
  · obtain ⟨c, hc, heq⟩ := List.mem_map.mp h
    by_cases hcd : c = "Diametre"
    · subst hcd
      rw [if_pos rfl] at heq
      exact absurd heq (by decide)
    · rw [if_neg hcd] at heq
      exact hcd heq
  · exact absurd h (by decide)

/-- Claim C10 witness at a concrete primary table already carrying
`Diametre`. -/
theorem c10_witness :
    ("N° compteur" ∈ t10P.cols ∧ "Diametre" ∈ t10P.cols ∧
      "Numéro de compteur" ∉ t10P.cols ∧
      "Numéro de compteur" ∈ t10L.cols ∧ "Diametre" ∈ t10L.cols) ∧
    ((ajouter_diametres t10P t10L).1.cols =
        t10P.cols.map (fun c => if c = "Diametre" then "Diametre_x" else c)
          ++ ["Diametre_y"] ∧
      "Diametre" ∉ (ajouter_diametres t10P t10L).1.cols) :=
  ⟨by decide,
    c10_diametre_collision t10P t10L (by decide) (by decide) (by decide)
      (by decide) (by decide)⟩

theorem dropColumn_rows_length (t : Table) (c : String) :
    (dropColumn t c).rows.length = t.rows.length := by
  unfold dropColumn
  cases t.cols.findIdx? (fun x => x == c) <;> simp

theorem mergeMatches_proj_length (P L : Table) (lrow : List Cell) :
    (mergeMatches P (projectCols L ["Numéro de compteur", "Diametre"])
      "N° compteur" "Numéro de compteur" lrow).length =
      nbCorrespondances L (keyCell P.cols lrow) := by
  unfold mergeMatches nbCorrespondances keyCell
  dsimp only [projectCols]
  rw [List.filter_map, List.length_map]
  congr 1

theorem mergeRowsFor_length (l r : Table) (lk rk : String) (lrow : List Cell) :
    (mergeRowsFor l r lk rk lrow).length =
      max (mergeMatches l r lk rk lrow).length 1 := by
  unfold mergeRowsFor
  cases hms : mergeMatches l r lk rk lrow with
  | nil => simp
  | cons a ms =>
    rw [List.isEmpty_cons]
    simp only [Bool.false_eq_true, if_false, List.length_map, List.length_cons]
    omega

theorem ajouter_length (P L : Table)
    (hp : "N° compteur" ∈ P.cols) (_hnn : "Numéro de compteur" ∉ P.cols)
    (hl1 : "Numéro de compteur" ∈ L.cols) (hl2 : "Diametre" ∈ L.cols) :
    (ajouter_diametres P L).1.rows.length =
      (P.rows.map (fun r => max (nbCorrespondances L (keyCell P.cols r)) 1)).sum := by
  rw [ajouter_ok P L hp hl1 hl2]
  dsimp only
  rw [dropColumn_rows_length]
  unfold mergeLeft
  dsimp only
  rw [List.length_flatMap]
  congr 1
  apply List.map_congr_left
  intro r hr
  show (mergeRowsFor P (projectCols L ["Numéro de compteur", "Diametre"])
      "N° compteur" "Numéro de compteur" r).length = _
  rw [mergeRowsFor_length, mergeMatches_proj_length]

/-- Claim C1 counterexample: a one-row primary table joined against a lookup
table whose key `A` occurs twice produces two output rows, so the output row
count differs from the primary row count. -/
theorem c1_counterexample :
    (ajouter_diametres t1Prim t1Look).1.rows.length ≠ t1Prim.rows.length := by
  decide

/-- Claim C1 as amended: when the primary table does not itself contain the
lookup key column `Numéro de compteur` (there the program's final column
drop raises `KeyError`) and every primary key — a missing key matching the
lookup's missing keys, as pandas merge does — matches at most one lookup
row, `ajouter_diametres` preserves the primary row count (with several
matches the merge fans out instead). -/
theorem c1_join_totality (P L : Table)
    (hp : "N° compteur" ∈ P.cols) (hnn : "Numéro de compteur" ∉ P.cols)
    (hl1 : "Numéro de compteur" ∈ L.cols) (hl2 : "Diametre" ∈ L.cols)
    (huniq : ∀ r ∈ P.rows, nbCorrespondances L (keyCell P.cols r) ≤ 1) :
    (ajouter_diametres P L).1.rows.length = P.rows.length := by
  rw [ajouter_length P L hp hnn hl1 hl2]
  have hmap : P.rows.map (fun r => max (nbCorrespondances L (keyCell P.cols r)) 1) =
      P.rows.map (fun _ => 1) := by
    apply List.map_congr_left
    intro r hr
    have := huniq r hr
    omega
  rw [hmap, List.map_const', List.sum_replicate]
  simp

/-- Claim C1 witness at tables whose lookup keys are unique. -/
theorem c1_witness :
    (("N° compteur" ∈ t1wPrim.cols ∧ "Numéro de compteur" ∉ t1wPrim.cols ∧
        "Numéro de compteur" ∈ t1wLook.cols ∧ "Diametre" ∈ t1wLook.cols) ∧
      (∀ r ∈ t1wPrim.rows, nbCorrespondances t1wLook (keyCell t1wPrim.cols r) ≤ 1)) ∧
    (ajouter_diametres t1wPrim t1wLook).1.rows.length = t1wPrim.rows.length :=
  ⟨⟨by decide, by decide⟩,
    c1_join_totality t1wPrim t1wLook (by decide) (by decide) (by decide) (by decide)
      (by decide)⟩

/-- Claim C2 counterexample: the primary row keyed `A` fans out into two
output rows, one per matching lookup row (in the lookup's original order),
instead of one row picked by a first-match rule. -/
theorem c2_counterexample :
    (ajouter_diametres t2Prim t2Look).1.rows =
      [[Cell.str "A", Cell.str "r1", Cell.str "15"],
       [Cell.str "A", Cell.str "r1", Cell.str "20"]] := by
  decide

/-- Claim C2 as amended: provided the primary table does not itself contain
`Numéro de compteur` (there the program's final column drop raises
`KeyError`), a primary row whose key matches n ≥ 1 lookup rows — a missing
key matching the lookup's missing keys, as pandas merge does — produces n
output rows (one per match, in the lookup's original order), and a row with
no match produces one null-padded row, so the output length is the sum over
primary rows of max(number of matches, 1). -/
theorem c2_fanout (P L : Table)
    (hp : "N° compteur" ∈ P.cols) (hnn : "Numéro de compteur" ∉ P.cols)
    (hl1 : "Numéro de compteur" ∈ L.cols) (hl2 : "Diametre" ∈ L.cols) :
    (ajouter_diametres P L).1.rows.length =
      (P.rows.map (fun r => max (nbCorrespondances L (keyCell P.cols r)) 1)).sum :=
  ajouter_length P L hp hnn hl1 hl2

/-- Claim C2 witness: keys A (two matches), B (one match), C (none) give
2 + 1 + 1 = 4 output rows. -/
theorem c2_witness :
    ("N° compteur" ∈ t2wPrim.cols ∧ "Numéro de compteur" ∉ t2wPrim.cols ∧
      "Numéro de compteur" ∈ t2wLook.cols ∧ "Diametre" ∈ t2wLook.cols) ∧
    (ajouter_diametres t2wPrim t2wLook).1.rows.length =
      (t2wPrim.rows.map
        (fun r => max (nbCorrespondances t2wLook (keyCell t2wPrim.cols r)) 1)).sum :=
  ⟨by decide,
    c2_fanout t2wPrim t2wLook (by decide) (by decide) (by decide) (by decide)⟩

theorem keyCell_set {cols : List String} {i j : Nat}
    (hj : cols.findIdx? (fun x => x == "N° compteur") = some j) (hji : j ≠ i)
    (r : List Cell) (v : Cell) :
    keyCell cols (r.set i v) = keyCell cols r := by
  unfold keyCell
  exact getCellC_set_ne hj hji r v

theorem indexCell_set {cols : List String} {i j : Nat}
    (hj : cols.findIdx? (fun x => x == "Index") = some j) (hji : j ≠ i)
    (r : List Cell) (v : Cell) :
    indexCell cols (r.set i v) = indexCell cols r := by
  unfold indexCell
  exact getCellC_set_ne hj hji r v

theorem filterMap_parse_filter (cols : List String) (i : Nat) (k : Cell) (d : Nat)
    (hset : ∀ (r : List Cell) (v : Cell), keyCell cols (r.set i v) = keyCell cols r) :
    ∀ l : List (List Cell),
      (∀ r ∈ l, keyCell cols r = k → parseDate (r.getD i Cell.null) = some d) →
      (l.filterMap (fun r =>
          match parseDate (r.getD i Cell.null) with
          | some e => some (r.set i (Cell.date e))
          | none => none)).filter (fun r => keyCell cols r == k) =
        (l.filter (fun r => keyCell cols r == k)).map
          (fun r => r.set i (Cell.date d)) := by
  intro l
  induction l with
  | nil => intro _; rfl
  | cons r rs ih =>
    intro h
    have hrs := fun x hx => h x (List.mem_cons_of_mem r hx)
    by_cases hq : keyCell cols r = k
    · have hpd := h r (List.mem_cons_self r rs) hq
      simp only [List.filterMap_cons, hpd]
      rw [List.filter_cons, List.filter_cons]
      have hq1 : (keyCell cols (r.set i (Cell.date d)) == k) = true := by
        rw [hset, hq]
        exact beq_self_eq_true k
      have hq2 : (keyCell cols r == k) = true := by
        rw [hq]
        exact beq_self_eq_true k
      rw [if_pos hq1, if_pos hq2, List.map_cons]
      congr 1
      exact ih hrs
    · have hq2 : ¬ ((keyCell cols r == k) = true) := fun hb => hq (eq_of_beq hb)
      rcases hpd : parseDate (r.getD i Cell.null) with _ | e
      · simp only [List.filterMap_cons, hpd]
        rw [List.filter_cons, if_neg hq2]
        exact ih hrs
      · simp only [List.filterMap_cons, hpd]
        rw [List.filter_cons, List.filter_cons]
        have hq1 : ¬ ((keyCell cols (r.set i (Cell.date e)) == k) = true) := by
          rw [hset]
          exact hq2
        rw [if_neg hq1, if_neg hq2]
        exact ih hrs

theorem c9_row_props (T : Table) (k : Cell) (d : Nat) (i : Nat)
    (h1 : "N° compteur" ∈ T.cols) (h3 : "Index" ∈ T.cols)
    (hi : T.cols.findIdx? (fun x => x == "Date") = some i)
    (hk : ∀ r ∈ T.rows, keyCell T.cols r = k →
      parseDate (dateCell T.cols r) = some d ∧ validIndexB T.cols r = true) :
    ∀ a ∈ (parseDates T).rows, keyCell T.cols a = k →
      dateCell T.cols a = Cell.date d ∧ validIndexB T.cols a = true := by
  intro a ha hka
  obtain ⟨j1, hj1⟩ := findIdx?_mem_isSome T.cols 0 h1
  have hj1i : j1 ≠ i := findIdx?_col_ne (by decide) hj1 hi
  obtain ⟨j3, hj3⟩ := findIdx?_mem_isSome T.cols 0 h3
  have hj3i : j3 ≠ i := findIdx?_col_ne (by decide) hj3 hi
  obtain ⟨r0, hr0, d0, hpd0, rfl⟩ := parseDates_mem hi a ha
  have hkr0 : keyCell T.cols r0 = k := by
    rw [← keyCell_set hj1 hj1i r0 (Cell.date d0)]
    exact hka
  obtain ⟨hpd, hval⟩ := hk r0 hr0 hkr0
  have hdc : dateCell T.cols r0 = r0.getD i Cell.null := by
    simp only [dateCell, getCellC, hi]
  rw [hdc, hpd0] at hpd
  injection hpd with hdd
  have hlen : i < r0.length := by
    by_contra hle
    rw [List.getD_eq_default _ _ (by omega)] at hpd0
    simp [parseDate] at hpd0
  constructor
  · have hdc2 : dateCell T.cols (r0.set i (Cell.date d0)) =
        (r0.set i (Cell.date d0)).getD i Cell.null := by
      simp only [dateCell, getCellC, hi]
    rw [hdc2, getD_set_self hlen, hdd]
  · have hidx : indexCell T.cols (r0.set i (Cell.date d0)) = indexCell T.cols r0 :=
      indexCell_set hj3 hj3i r0 (Cell.date d0)
    unfold validIndexB at hval ⊢
    rw [hidx]
    exact hval

/-- Claim C9: the sort of `nettoyer_fichier` is stable — when every row of
key k parses to the same date d and has a valid index, the output row for k
is the FIRST key-k row of the input in original order (with its date cell
replaced by the parsed date), so ties in date are broken by input order. -/
theorem c9_stable_tie (T : Table) (k : Cell) (d : Nat) (i : Nat)
    (h1 : "N° compteur" ∈ T.cols) (h2 : "Date" ∈ T.cols) (h3 : "Index" ∈ T.cols)
    (hi : T.cols.findIdx? (fun x => x == "Date") = some i)
    (hk : ∀ r ∈ T.rows, keyCell T.cols r = k →
      parseDate (dateCell T.cols r) = some d ∧ validIndexB T.cols r = true) :
    (nettoyer_fichier T).1.rows.filter (fun r => keyCell T.cols r == k) =
      ((T.rows.filter (fun r => keyCell T.cols r == k)).take 1).map
        (fun r => r.set i (Cell.date d)) := by
  have hcon : "N° compteur" ∈ T.cols ∧ "Date" ∈ T.cols ∧ "Index" ∈ T.cols := ⟨h1, h2, h3⟩
  rw [nettoyer_fichier_ok T hcon]
  dsimp only
  obtain ⟨j, hj⟩ := findIdx?_mem_isSome T.cols 0 h1
  have hji : j ≠ i := findIdx?_col_ne (by decide) hj hi
  have hset : ∀ (r : List Cell) (v : Cell),
      keyCell T.cols (r.set i v) = keyCell T.cols r :=
    fun r v => keyCell_set hj hji r v
  have hprops := c9_row_props T k d i h1 h3 hi hk
  rw [dedupAux_filter_key (keyCell T.cols) k _ [] (List.not_mem_nil k)]
  rw [List.filter_filter]
  have hfc : ∀ a ∈ isort (leRow T.cols) (parseDates T).rows,
      ((keyCell T.cols a == k) && validIndexB T.cols a) = (keyCell T.cols a == k) := by
    intro a ha
    by_cases hqa : keyCell T.cols a = k
    · have hv := (hprops a ((mem_isort _ a _).mp ha) hqa).2
      rw [hv, Bool.and_true]
    · have hb : (keyCell T.cols a == k) = false := by
        cases hb : keyCell T.cols a == k
        · rfl
        · exact absurd (eq_of_beq hb) hqa
      rw [hb]
      rfl
  rw [List.filter_congr hfc]
  have hle : ∀ x ∈ (parseDates T).rows, ∀ y ∈ (parseDates T).rows,
      (keyCell T.cols x == k) = true → (keyCell T.cols y == k) = true →
      leRow T.cols x y = true := by
    intro x hx y hy hpx hpy
    obtain ⟨hdx, _⟩ := hprops x hx (eq_of_beq hpx)
    obtain ⟨hdy, _⟩ := hprops y hy (eq_of_beq hpy)
    unfold leRow
    rw [eq_of_beq hpx, eq_of_beq hpy, hdx, hdy]
    simp [cellLtB_irrefl]
  rw [filter_isort (parseDates T).rows hle]
  have hP : (parseDates T).rows = T.rows.filterMap (fun r =>
      match parseDate (r.getD i Cell.null) with
      | some e => some (r.set i (Cell.date e))
      | none => none) := by
    simp only [parseDates, hi]
  have hpdall : ∀ r ∈ T.rows, keyCell T.cols r = k →
      parseDate (r.getD i Cell.null) = some d := by
    intro r hr hkr
    have hdc : dateCell T.cols r = r.getD i Cell.null := by
      simp only [dateCell, getCellC, hi]
    rw [← hdc]
    exact (hk r hr hkr).1
  rw [hP, filterMap_parse_filter T.cols i k d hset T.rows hpdall]
  rw [List.map_take]

/-- Claim C9 witness: two rows keyed `K` tie on the parsed date 2024-01-10
(one ISO, one day-first); the earlier one (index "100") is the one kept. -/
theorem c9_witness :
    (("N° compteur" ∈ t9.cols ∧ "Date" ∈ t9.cols ∧ "Index" ∈ t9.cols) ∧
      t9.cols.findIdx? (fun x => x == "Date") = some 1 ∧
      (∀ r ∈ t9.rows, keyCell t9.cols r = Cell.str "K" →
        parseDate (dateCell t9.cols r) = some 20240110 ∧
        validIndexB t9.cols r = true)) ∧
    ((nettoyer_fichier t9).1.rows.filter
        (fun r => keyCell t9.cols r == Cell.str "K") =
      ((t9.rows.filter (fun r => keyCell t9.cols r == Cell.str "K")).take 1).map
        (fun r => r.set 1 (Cell.date 20240110))) :=
  ⟨⟨by decide, by decide, by decide⟩,
    c9_stable_tie t9 (Cell.str "K") 20240110 1 (by decide) (by decide) (by decide)
      (by decide) (by decide)⟩

/-- Claim C7 witness at a concrete table with duplicates, an unparseable date
and blank indexes. -/
theorem c7_witness :
    ("N° compteur" ∈ t7.cols ∧ "Date" ∈ t7.cols ∧ "Index" ∈ t7.cols) ∧
    nettoyer_fichier ((nettoyer_fichier t7).1) = nettoyer_fichier t7 :=
  ⟨⟨by decide, by decide, by decide⟩,
    c7_dedupe_idempotent t7 (by decide) (by decide) (by decide)⟩
